import Mathlib

/-!
Verification of the text-to-SQL generation-and-refinement pipeline
(`core_fr.py`): prompt construction, offline draft extraction, optional
remote refinement with fail-open fallback, and Markdown fence stripping.

Strings are modelled as `List Char`; the Python string primitives used by
the code (`str.strip`, `str.splitlines`, `str.split`, `str.startswith`,
`in`) are embedded below with Python's semantics (Python's whitespace set,
Python's line-break set, splitting on non-overlapping occurrences from the
left).
-/

namespace TextToSql

/-- Characters removed by Python `str.strip()` (Unicode whitespace). -/
def pyIsSpace (c : Char) : Bool :=
  c = ' ' || c = '\t' || c = '\n' || c = '\r' || c = '\x0b' || c = '\x0c' ||
  c = '\x1c' || c = '\x1d' || c = '\x1e' || c = '\x1f' || c = '\x85' ||
  c = '\xa0' || c = ' ' || c = ' ' || c = ' ' || c = ' ' ||
  c = ' ' || c = ' ' || c = ' ' || c = ' ' || c = ' ' ||
  c = ' ' || c = ' ' || c = ' ' || c = ' ' || c = ' ' ||
  c = ' ' || c = ' ' || c = '　'

/-- Python `str.strip()`: drop leading and trailing whitespace. -/
def pyStrip (cs : List Char) : List Char :=
  List.rdropWhile pyIsSpace (List.dropWhile pyIsSpace cs)

/-- Line boundaries recognised by Python `str.splitlines()`. -/
def isLineBreak (c : Char) : Bool :=
  c = '\n' || c = '\r' || c = '\x0b' || c = '\x0c' || c = '\x1c' ||
  c = '\x1d' || c = '\x1e' || c = '\x85' || c = ' ' || c = ' '

/-- Worker for `pySplitlines`: `acc` holds the current line reversed.
A final line break produces no trailing empty line, and `"\r\n"` counts
as a single boundary, exactly as in Python. Each step consumes at least
one character, so `fuel = cs.length` suffices; the fuel-exhausted branch
is unreachable from `pySplitlines`. -/
def splitlinesGo : Nat → List Char → List Char → List (List Char)
  | _, acc, [] => [acc.reverse]
  | 0, acc, c :: rest => [acc.reverse ++ (c :: rest)]
  | fuel + 1, acc, c :: rest =>
      if isLineBreak c then
        let rest2 := if c = '\r' && rest.head? = some '\n' then rest.tail else rest
        acc.reverse :: (if rest2.isEmpty then [] else splitlinesGo fuel [] rest2)
      else splitlinesGo fuel (c :: acc) rest

/-- Python `str.splitlines()`. -/
def pySplitlines (cs : List Char) : List (List Char) :=
  match cs with
  | [] => []
  | _ => splitlinesGo cs.length [] cs

/-- Python `"\n".join(lines)`. -/
def joinNL (ls : List (List Char)) : List Char :=
  List.intercalate ['\n'] ls

/-- Python `sep in s` (substring containment). -/
def containsSub (sep : List Char) : List Char → Bool
  | [] => sep.isPrefixOf []
  | c :: rest => sep.isPrefixOf (c :: rest) || containsSub sep rest

/-- Worker for `pySplitSep`: Python `str.split(sep)` for a non-empty
separator, splitting on non-overlapping occurrences from the left. Each
step consumes at least one character, so `fuel = cs.length` suffices; the
fuel-exhausted branch is unreachable from `pySplitSep`. -/
def splitSepGo (sep : List Char) : Nat → List Char → List Char → List (List Char)
  | _, acc, [] => [acc.reverse]
  | 0, acc, c :: rest => [acc.reverse ++ (c :: rest)]
  | fuel + 1, acc, c :: rest =>
      if sep.isPrefixOf (c :: rest) then
        acc.reverse :: splitSepGo sep fuel [] (List.drop (sep.length - 1) rest)
      else splitSepGo sep fuel (c :: acc) rest

/-- Python `s.split(sep)` for a non-empty `sep`. -/
def pySplitSep (sep cs : List Char) : List (List Char) :=
  splitSepGo sep cs.length [] cs

/-- The literal marker the extractor splits on (`core_fr.py` line 51). -/
def MARKER : List Char := "# Output:".data

/-- The opening of a Markdown code fence. -/
def FENCE : List Char := "```".data

/-- The fixed few-shot template text preceding the interpolated request in
`SQLGenerator.generate` (`core_fr.py` lines 33-47), up to and including the
final `"# Input: "` marker. -/
def TEMPLATE_PRE : List Char :=
  ("### SQL Generation\n# Schema:\n#   users(user_id INT, first_name VARCHAR, last_name VARCHAR, email VARCHAR, signup_date DATE)\n#   orders(order_id INT, user_id INT, order_total FLOAT, order_date DATE)\n#   products(product_id INT, name VARCHAR, price FLOAT)\n\n# Examples:\n# Input: Find total number of orders placed by each user.\n# Output: SELECT u.first_name, u.last_name, COUNT(o.order_id) AS total_orders FROM users u JOIN orders o ON u.user_id = o.user_id GROUP BY u.user_id;\n\n# Input: Create a table of employees with columns emp_id, emp_name, emp_address.\n# Output: CREATE TABLE employees (emp_id INT, emp_name VARCHAR(255), emp_address VARCHAR(255));\n\n# Now your request:\n# Input: ").data

/-- The template text following the interpolated request (`core_fr.py`
lines 47-48). -/
def TEMPLATE_POST : List Char := "\n# Output:".data

/-- Prompt construction: the request is interpolated verbatim into the
fixed few-shot template (the f-string of `SQLGenerator.generate`). -/
def buildPrompt (request : List Char) : List Char :=
  TEMPLATE_PRE ++ request ++ TEMPLATE_POST

/-- Output extraction from the raw model text (`core_fr.py` lines 51-53):
take the last field of the split on `"# Output:"` when the marker occurs
(otherwise the whole text), drop every line whose stripped form starts
with `#`, join with newlines, strip. -/
def extract (out : List Char) : List Char :=
  let sqlPart := if containsSub MARKER out then (pySplitSep MARKER out).getLastD [] else out
  let lines := (pySplitlines sqlPart).filter (fun l => !(['#'].isPrefixOf (pyStrip l)))
  pyStrip (joinNL lines)

/-- `SQLGenerator.generate`: build the prompt, run the (uninterpreted)
text-generation pipeline `pipeOut`, extract the draft SQL. -/
def generate (pipeOut : List Char → List Char) (request : List Char) : List Char :=
  extract (pipeOut (buildPrompt request))

/-- Outcome of the single remote chat-completion round trip: either a
response text, or an exception of any kind raised during the request. -/
inductive RemoteOutcome where
  | success : List Char → RemoteOutcome
  | failure : RemoteOutcome

/-- `_refine_with_openai` (`core_fr.py` lines 60-89): with no configured
credential (absent or empty `OPENAI_API_KEY`) return the draft unchanged;
otherwise return the remote response stripped on success, and the draft
unchanged when the request raises (the broad `except` fallback). -/
def refine_with_openai (key : Option (List Char)) (remote : RemoteOutcome)
    (prompt draftSql : List Char) : List Char :=
  match key with
  | none => draftSql
  | some k =>
      if k = [] then draftSql
      else
        match remote with
        | RemoteOutcome.success content => pyStrip content
        | RemoteOutcome.failure => draftSql

/-- `_strip_fence` (`core_fr.py` lines 93-106): strip the text; if it
starts with a triple backtick, drop the first line, drop the last line
when that line's stripped form starts with a triple backtick, re-join and
strip; otherwise return the stripped text. -/
def strip_fence (text : List Char) : List Char :=
  let t := pyStrip text
  if FENCE.isPrefixOf t then
    let lines := (pySplitlines t).tail
    let lines2 :=
      match lines.getLast? with
      | some lastLine => if FENCE.isPrefixOf (pyStrip lastLine) then lines.dropLast else lines
      | none => lines
    pyStrip (joinNL lines2)
  else t

/-- `text_to_sql` (`core_fr.py` lines 110-114), the pipeline entry point,
parametrised by the uninterpreted offline model `pipeOut`, the credential
environment `key`, and the remote outcome `remote`. -/
def text_to_sql (pipeOut : List Char → List Char) (key : Option (List Char))
    (remote : RemoteOutcome) (request : List Char) : List Char :=
  let prompt := pyStrip request
  let draft := generate pipeOut prompt
  let refined := refine_with_openai key remote prompt draft
  strip_fence refined

/-! ### Helper lemmas about the Python string primitives -/

theorem pyStrip_dropWhile (cs : List Char) :
    List.dropWhile pyIsSpace (pyStrip cs) = pyStrip cs := by
  rw [List.dropWhile_eq_self_iff]
  intro hl
  have hpre : pyStrip cs <+: List.dropWhile pyIsSpace cs :=
    List.rdropWhile_prefix pyIsSpace (List.dropWhile pyIsSpace cs)
  have h0 : 0 < (List.dropWhile pyIsSpace cs).length := lt_of_lt_of_le hl hpre.length_le
  have hns := List.dropWhile_get_zero_not pyIsSpace cs h0
  simp only [List.get_eq_getElem] at hns ⊢
  rw [hpre.getElem hl]
  exact hns

theorem pyStrip_idem (cs : List Char) : pyStrip (pyStrip cs) = pyStrip cs := by
  show List.rdropWhile pyIsSpace (List.dropWhile pyIsSpace (pyStrip cs)) = pyStrip cs
  rw [pyStrip_dropWhile]
  show List.rdropWhile pyIsSpace (List.rdropWhile pyIsSpace (List.dropWhile pyIsSpace cs)) =
    List.rdropWhile pyIsSpace (List.dropWhile pyIsSpace cs)
  exact List.rdropWhile_idempotent pyIsSpace (List.dropWhile pyIsSpace cs)

theorem pyStrip_getLast_not_space (cs : List Char) (h : pyStrip cs ≠ []) :
    pyIsSpace ((pyStrip cs).getLast h) = false := by
  have := List.rdropWhile_last_not pyIsSpace (List.dropWhile pyIsSpace cs) h
  simpa using this

theorem isLineBreak_space {c : Char} (h : isLineBreak c = true) : pyIsSpace c = true := by
  simp only [isLineBreak, Bool.or_eq_true, decide_eq_true_eq] at h
  simp only [pyIsSpace, Bool.or_eq_true, decide_eq_true_eq]
  tauto

theorem getLast?_cons_ne_nil {α : Type} (a : α) {l : List α} (h : l ≠ []) :
    (a :: l).getLast? = l.getLast? := by
  cases l with
  | nil => exact absurd rfl h
  | cons b t => exact List.getLast?_cons_cons

theorem getLastD_ne_nil {α : Type} {l : List α} (h : l ≠ []) (a b : α) :
    l.getLastD a = l.getLastD b := by
  cases hx : l.getLast? with
  | none => exact absurd (List.getLast?_eq_none_iff.mp hx) h
  | some x => rw [List.getLastD_eq_getLast?, List.getLastD_eq_getLast?, hx]; rfl

theorem filter_getLast?_of_pos {α : Type} (P : α → Bool) {l : List α} {a : α}
    (h : l.getLast? = some a) (ha : P a = true) :
    (l.filter P).getLast? = some a := by
  rcases List.getLast?_eq_some_iff.mp h with ⟨ys, rfl⟩
  rw [List.filter_append]
  have hfa : List.filter P [a] = [a] := by simp [ha]
  rw [hfa, List.getLast?_concat]

theorem splitlinesGo_ne_nil : ∀ (fuel : Nat) (acc cs : List Char),
    splitlinesGo fuel acc cs ≠ [] := by
  intro fuel
  induction fuel with
  | zero => intro acc cs; cases cs <;> simp [splitlinesGo]
  | succ n ih =>
      intro acc cs
      cases cs with
      | nil => simp [splitlinesGo]
      | cons c rest =>
          by_cases hb : isLineBreak c = true
          · simp only [splitlinesGo, hb, if_true]
            exact List.cons_ne_nil _ _
          · simp only [splitlinesGo, hb, Bool.false_eq_true, if_false]
            exact ih _ _

theorem splitlinesGo_getLast : ∀ (fuel : Nat) (acc cs : List Char) (c : Char),
    cs.length ≤ fuel → cs.getLast? = some c → isLineBreak c = false →
    ∃ l, (splitlinesGo fuel acc cs).getLast? = some l ∧ l ≠ [] := by
  intro fuel
  induction fuel with
  | zero =>
      intro acc cs c hlen hc hbc
      have : cs = [] := List.length_eq_zero.mp (Nat.le_zero.mp hlen)
      subst this; simp at hc
  | succ n ih =>
      intro acc cs c hlen hc hbc
      cases cs with
      | nil => simp at hc
      | cons c0 rest =>
          have hrest_ne : isLineBreak c0 = true → rest ≠ [] := by
            intro hb0 hre
            subst hre
            simp only [List.getLast?_singleton, Option.some.injEq] at hc
            subst hc
            rw [hb0] at hbc
            exact Bool.true_eq_false.mp hbc
          by_cases hb : isLineBreak c0 = true
          · have hrne : rest ≠ [] := hrest_ne hb
            have hcrest : rest.getLast? = some c := by
              rw [← getLast?_cons_ne_nil c0 hrne]; exact hc
            by_cases hcr : (c0 = '\r' && rest.head? = some '\n') = true
            · simp only [Bool.and_eq_true, decide_eq_true_eq] at hcr
              obtain ⟨hc0, hhd⟩ := hcr
              cases rest with
              | nil => exact absurd rfl hrne
              | cons r1 rt =>
                  simp only [List.head?_cons, Option.some.injEq] at hhd
                  subst hhd
                  subst hc0
                  have hrt_ne : rt ≠ [] := by
                    intro hre
                    subst hre
                    simp only [List.getLast?_singleton, Option.some.injEq] at hcrest
                    subst hcrest
                    simp [isLineBreak] at hbc
                  cases rt with
                  | nil => exact absurd rfl hrt_ne
                  | cons t1 tt =>
                      have hclast : (t1 :: tt).getLast? = some c := by
                        rw [← getLast?_cons_ne_nil '\n' (List.cons_ne_nil t1 tt)]
                        exact hcrest
                      have hlen2 : (t1 :: tt).length ≤ n := by
                        simp only [List.length_cons] at hlen ⊢
                        omega
                      obtain ⟨l, hl1, hl2⟩ := ih [] (t1 :: tt) c hlen2 hclast hbc
                      refine ⟨l, ?_, hl2⟩
                      simp only [splitlinesGo, hb, if_true, List.head?_cons,
                        List.tail_cons, decide_True, Bool.and_self, List.isEmpty_cons,
                        Bool.false_eq_true, if_false]
                      rw [getLast?_cons_ne_nil _ (splitlinesGo_ne_nil n [] (t1 :: tt))]
                      exact hl1
            · cases rest with
              | nil => exact absurd rfl hrne
              | cons r1 rt =>
                  have hlen2 : (r1 :: rt).length ≤ n := by
                    simp only [List.length_cons] at hlen ⊢
                    omega
                  obtain ⟨l, hl1, hl2⟩ := ih [] (r1 :: rt) c hlen2 hcrest hbc
                  refine ⟨l, ?_, hl2⟩
                  simp only [splitlinesGo, hb, if_true, Bool.not_eq_true] at *
                  rw [hcr]
                  simp only [Bool.false_eq_true, if_false, List.isEmpty_cons]
                  rw [getLast?_cons_ne_nil _ (splitlinesGo_ne_nil n [] (r1 :: rt))]
                  exact hl1
          · simp only [splitlinesGo, hb, Bool.false_eq_true, if_false]
            cases rest with
            | nil =>
                simp only [List.getLast?_singleton, Option.some.injEq] at hc
                refine ⟨(c0 :: acc).reverse, ?_, ?_⟩
                · simp [splitlinesGo]
                · simp
            | cons r1 rt =>
                have hcrest : (r1 :: rt).getLast? = some c := by
                  rw [← getLast?_cons_ne_nil c0 (List.cons_ne_nil r1 rt)]
                  exact hc
                have hlen2 : (r1 :: rt).length ≤ n := by
                  simp only [List.length_cons] at hlen ⊢
                  omega
                exact ih (c0 :: acc) (r1 :: rt) c hlen2 hcrest hbc

theorem pySplitlines_getLast {cs : List Char} {c : Char} (hc : cs.getLast? = some c)
    (hbc : isLineBreak c = false) :
    ∃ l, (pySplitlines cs).getLast? = some l ∧ l ≠ [] := by
  cases cs with
  | nil => simp at hc
  | cons c0 rest =>
      exact splitlinesGo_getLast (c0 :: rest).length [] (c0 :: rest) c (le_refl _) hc hbc

theorem splitSepGo_ne_nil (sep : List Char) : ∀ (fuel : Nat) (acc cs : List Char),
    splitSepGo sep fuel acc cs ≠ [] := by
  intro fuel
  induction fuel with
  | zero => intro acc cs; cases cs <;> simp [splitSepGo]
  | succ n ih =>
      intro acc cs
      cases cs with
      | nil => simp [splitSepGo]
      | cons c rest =>
          by_cases hp : sep.isPrefixOf (c :: rest) = true
          · simp only [splitSepGo, hp, if_true]
            exact List.cons_ne_nil _ _
          · simp only [splitSepGo, hp, Bool.false_eq_true, if_false]
            exact ih _ _

theorem splitSepGo_no_occ (sep : List Char) : ∀ (fuel : Nat) (acc cs : List Char),
    containsSub sep cs = false → splitSepGo sep fuel acc cs = [acc.reverse ++ cs] := by
  intro fuel
  induction fuel with
  | zero =>
      intro acc cs h
      cases cs <;> simp [splitSepGo]
  | succ n ih =>
      intro acc cs h
      cases cs with
      | nil => simp [splitSepGo]
      | cons c rest =>
          simp only [containsSub, Bool.or_eq_false_iff] at h
          simp only [splitSepGo, h.1, Bool.false_eq_true, if_false]
          rw [ih (c :: acc) rest h.2]
          simp

theorem splitSepGo_last_occ (sep : List Char) (hsep : sep ≠ []) :
    ∀ (fuel : Nat) (cs acc : List Char), cs.length ≤ fuel → containsSub sep cs = true →
      ∃ pre rest, cs = pre ++ sep ++ rest ∧ containsSub sep rest = false ∧
        (splitSepGo sep fuel acc cs).getLastD [] = rest := by
  intro fuel
  induction fuel with
  | zero =>
      intro cs acc hlen hcon
      have hnil : cs = [] := List.length_eq_zero.mp (Nat.le_zero.mp hlen)
      subst hnil
      simp only [containsSub] at hcon
      exact absurd (List.prefix_nil.mp (List.isPrefixOf_iff_prefix.mp hcon)) hsep
  | succ n ih =>
      intro cs acc hlen hcon
      cases cs with
      | nil =>
          simp only [containsSub] at hcon
          exact absurd (List.prefix_nil.mp (List.isPrefixOf_iff_prefix.mp hcon)) hsep
      | cons c rest =>
          by_cases hp : sep.isPrefixOf (c :: rest) = true
          · have hpre : sep <+: (c :: rest) := List.isPrefixOf_iff_prefix.mp hp
            have hdecomp : sep ++ List.drop sep.length (c :: rest) = c :: rest :=
              List.prefix_iff_eq_append.mp hpre
            have hb2 : sep ++ List.drop (sep.length - 1) rest = c :: rest := by
              cases hsl : sep.length with
              | zero => exact absurd (List.length_eq_zero.mp hsl) hsep
              | succ m =>
                  rw [Nat.add_sub_cancel]
                  rw [hsl, List.drop_succ_cons] at hdecomp
                  exact hdecomp
            have hblen : (List.drop (sep.length - 1) rest).length ≤ n := by
              simp only [List.length_drop]
              simp only [List.length_cons] at hlen
              omega
            by_cases hcb : containsSub sep (List.drop (sep.length - 1) rest) = true
            · obtain ⟨p, r, hpr, hnr, hlast⟩ := ih (List.drop (sep.length - 1) rest) [] hblen hcb
              refine ⟨sep ++ p, r, ?_, hnr, ?_⟩
              · rw [← hb2, hpr]
                simp [List.append_assoc]
              · simp only [splitSepGo, hp, if_true]
                rw [List.getLastD_cons]
                rw [getLastD_ne_nil (splitSepGo_ne_nil sep n [] _) acc.reverse []]
                exact hlast
            · have hcb' : containsSub sep (List.drop (sep.length - 1) rest) = false := by
                simpa using hcb
              refine ⟨[], List.drop (sep.length - 1) rest, by simpa using hb2.symm, hcb', ?_⟩
              simp only [splitSepGo, hp, if_true]
              rw [splitSepGo_no_occ sep n [] _ hcb']
              simp [List.getLastD_cons]
          · have hcr : containsSub sep rest = true := by
              simp only [containsSub, Bool.or_eq_true] at hcon
              rcases hcon with h1 | h2
              · exact absurd h1 hp
              · exact h2
            have hrlen : rest.length ≤ n := by
              simp only [List.length_cons] at hlen
              omega
            obtain ⟨p, r, hpr, hnr, hlast⟩ := ih rest (c :: acc) hrlen hcr
            refine ⟨c :: p, r, ?_, hnr, ?_⟩
            · rw [hpr]
              simp
            · simp only [splitSepGo, hp, Bool.false_eq_true, if_false]
              exact hlast

theorem pySplitSep_last_occ (sep out : List Char) (hsep : sep ≠ [])
    (h : containsSub sep out = true) :
    ∃ pre rest, out = pre ++ sep ++ rest ∧ containsSub sep rest = false ∧
      (pySplitSep sep out).getLastD [] = rest :=
  splitSepGo_last_occ sep hsep out.length out [] (le_refl _) h

theorem pyStrip_strip_fence (x : List Char) : pyStrip (strip_fence x) = strip_fence x := by
  simp only [strip_fence]
  split
  · exact pyStrip_idem _
  · exact pyStrip_idem _

theorem refine_failure_eq (key : Option (List Char)) (prompt draftSql : List Char) :
    refine_with_openai key RemoteOutcome.failure prompt draftSql = draftSql := by
  cases key with
  | none => rfl
  | some k => by_cases hk : k = [] <;> simp [refine_with_openai, hk]

theorem refine_none_eq (remote : RemoteOutcome) (prompt draftSql : List Char) :
    refine_with_openai none remote prompt draftSql = draftSql := rfl

theorem strip_fence_eq_self {y : List Char} (hy : pyStrip y = y)
    (h : FENCE.isPrefixOf y = false) : strip_fence y = y := by
  simp only [strip_fence, hy, h, Bool.false_eq_true, if_false]

/-! ### Claim theorems -/

set_option maxRecDepth 100000

/-- C1: when the single remote refinement round trip fails with any
exception, the refiner returns the draft SQL unchanged (the embedded
`refine_with_openai` is total, so no exception escapes the pipeline), and
the pipeline's final output under a failing refinement equals the output
produced when refinement is never configured, for the same model and the
same request (hence the same draft). -/
theorem c1_refinement_fail_open :
    (∀ (key : Option (List Char)) (prompt draftSql : List Char),
        refine_with_openai key RemoteOutcome.failure prompt draftSql = draftSql) ∧
    (∀ (pipeOut : List Char → List Char) (key : Option (List Char))
        (remote : RemoteOutcome) (request : List Char),
        text_to_sql pipeOut key RemoteOutcome.failure request =
          text_to_sql pipeOut none remote request) := by
  constructor
  · exact refine_failure_eq
  · intro pipeOut key remote request
    simp only [text_to_sql, refine_failure_eq, refine_none_eq]

/-- C2 (counterexample): the claimed equality with the composition taken
at the raw request fails on a whitespace-padded request, for a model that
distinguishes the two prompts, because the pipeline strips the request
before prompt construction: the pipeline answers the stripped-request
prompt while the raw composition answers the padded one. -/
theorem c2_counterexample :
    ¬ (text_to_sql
          (fun p => if p = buildPrompt ("x".data) then ("A".data) else ("B".data))
          none RemoteOutcome.failure (" x".data) =
        strip_fence (extract
          ((fun p => if p = buildPrompt ("x".data) then ("A".data) else ("B".data))
            (buildPrompt (" x".data))))) := by decide

/-- C2 (amended): with no credential configured, the pipeline output is
exactly the fence-stripped extraction of the offline generation over the
prompt built from the stripped request — the composition taken at the
request as the pipeline itself feeds it to prompt construction — and the
refinement stage is the identity on the draft. -/
theorem c2_offline_equals_composition :
    (∀ (pipeOut : List Char → List Char) (remote : RemoteOutcome) (request : List Char),
        text_to_sql pipeOut none remote request =
          strip_fence (extract (pipeOut (buildPrompt (pyStrip request))))) ∧
    (∀ (remote : RemoteOutcome) (prompt draftSql : List Char),
        refine_with_openai none remote prompt draftSql = draftSql) := by
  exact ⟨fun _ _ _ => rfl, fun _ _ _ => rfl⟩

/-- C3 (counterexample): the fence stripper is not idempotent as claimed:
on the doubly fenced input consisting of a bare fence line, a tagged fence
line, a SQL line and a closing fence line, one application leaves a text
that still opens with a fence, so a second application strips again. -/
theorem c3_counterexample :
    strip_fence (strip_fence ("```\n```sql\nSELECT\n```".data)) ≠
      strip_fence ("```\n```sql\nSELECT\n```".data) := by decide

/-- C3 (amended): the fence stripper is idempotent on every input whose
once-stripped result does not itself open with a triple-backtick fence. -/
theorem c3_idempotent_of_unfenced_result (x : List Char)
    (h : FENCE.isPrefixOf (strip_fence x) = false) :
    strip_fence (strip_fence x) = strip_fence x :=
  strip_fence_eq_self (pyStrip_strip_fence x) h

theorem c3_witness :
    FENCE.isPrefixOf (strip_fence ("```sql\nSELECT 1;\n```".data)) = false ∧
    strip_fence (strip_fence ("```sql\nSELECT 1;\n```".data)) =
      strip_fence ("```sql\nSELECT 1;\n```".data) :=
  ⟨by decide, c3_idempotent_of_unfenced_result _ (by decide)⟩

/-- C4: the output extractor keeps only the text after the last
occurrence of the literal marker (witnessed by a decomposition whose tail
contains no further marker), or the entire text when the marker is
absent; it then drops every line whose trimmed form starts with a hash,
joins the rest and trims; and on the spec's concrete example it returns
the single SQL line. -/
theorem c4_output_extractor :
    (∀ out : List Char, containsSub MARKER out = true →
        ∃ pre rest, out = pre ++ MARKER ++ rest ∧ containsSub MARKER rest = false ∧
          extract out = pyStrip (joinNL ((pySplitlines rest).filter
            (fun l => !(['#'].isPrefixOf (pyStrip l)))))) ∧
    (∀ out : List Char, containsSub MARKER out = false →
        extract out = pyStrip (joinNL ((pySplitlines out).filter
          (fun l => !(['#'].isPrefixOf (pyStrip l)))))) ∧
    extract ("# Output:\nSELECT 1;\n# trailing comment".data) = ("SELECT 1;".data) := by
  refine ⟨?_, ?_, by decide⟩
  · intro out hc
    obtain ⟨pre, rest, hdecomp, hnr, hlast⟩ := pySplitSep_last_occ MARKER out (by decide) hc
    refine ⟨pre, rest, hdecomp, hnr, ?_⟩
    simp only [extract, hc, if_true, hlast]
  · intro out hc
    simp only [extract, hc, Bool.false_eq_true, if_false]

theorem c4_witness :
    containsSub MARKER ("# Output:\nSELECT 2;".data) = true ∧
    (∃ pre rest, ("# Output:\nSELECT 2;".data) = pre ++ MARKER ++ rest ∧
      containsSub MARKER rest = false ∧
      extract ("# Output:\nSELECT 2;".data) = pyStrip (joinNL ((pySplitlines rest).filter
        (fun l => !(['#'].isPrefixOf (pyStrip l)))))) :=
  ⟨by decide, c4_output_extractor.1 _ (by decide)⟩

/-- C5: end-to-end with the generation stage mocked to echo the fixed
fenced draft and no refinement credential configured, the pipeline yields
the plain SQL statement. -/
theorem c5_end_to_end_mocked :
    text_to_sql (fun _ => ("```sql\nSELECT COUNT(*) FROM orders;\n```".data)) none
        RemoteOutcome.failure ("Find total number of orders placed by each user.".data) =
      ("SELECT COUNT(*) FROM orders;".data) := by decide

/-- C6: on input whose trimmed form does not open with a triple-backtick
fence, the fence stripper returns the input unchanged apart from removal
of leading and trailing whitespace. -/
theorem c6_unfenced_unchanged (x : List Char)
    (h : FENCE.isPrefixOf (pyStrip x) = false) :
    strip_fence x = pyStrip x := by
  simp only [strip_fence, h, Bool.false_eq_true, if_false]

theorem c6_witness :
    FENCE.isPrefixOf (pyStrip ("  SELECT 42 FROM users;  ".data)) = false ∧
    strip_fence ("  SELECT 42 FROM users;  ".data) =
      pyStrip ("  SELECT 42 FROM users;  ".data) :=
  ⟨by decide, c6_unfenced_unchanged _ (by decide)⟩

/-- C7: on input whose trimmed form opens with a triple-backtick fence,
the stripper removes the first line and removes the final line precisely
when the last non-empty interior line is a fence-marker line (a line
whose trimmed form starts with three backticks, the same tolerance the
opening fence enjoys for a language tag), returning the remaining
interior joined and trimmed. The trimmed text cannot end in a line break,
so its last split line is non-empty and coincides with the last non-empty
line. -/
theorem c7_fenced_strip (x : List Char)
    (h : FENCE.isPrefixOf (pyStrip x) = true) :
    strip_fence x =
      pyStrip (joinNL
        (match ((pySplitlines (pyStrip x)).tail.filter (fun l => !l.isEmpty)).getLast? with
         | some l =>
             if FENCE.isPrefixOf (pyStrip l) = true
             then (pySplitlines (pyStrip x)).tail.dropLast
             else (pySplitlines (pyStrip x)).tail
         | none => (pySplitlines (pyStrip x)).tail)) := by
  have ht_ne : pyStrip x ≠ [] := by
    intro h0
    rw [h0] at h
    exact absurd h (by decide)
  have hlast_char := pyStrip_getLast_not_space x ht_ne
  have hlast? : (pyStrip x).getLast? = some ((pyStrip x).getLast ht_ne) :=
    List.getLast?_eq_getLast _ _
  have hnb : isLineBreak ((pyStrip x).getLast ht_ne) = false := by
    cases hlb : isLineBreak ((pyStrip x).getLast ht_ne) with
    | false => rfl
    | true => rw [isLineBreak_space hlb] at hlast_char; exact absurd hlast_char (by simp)
  obtain ⟨L, hL1, hL2⟩ := pySplitlines_getLast hlast? hnb
  cases hti : (pySplitlines (pyStrip x)).tail.getLast? with
  | none =>
      have hnil : (pySplitlines (pyStrip x)).tail = [] := List.getLast?_eq_none_iff.mp hti
      simp only [strip_fence, h, if_true, hti, hnil]
      simp
  | some a =>
      have htail_ne : (pySplitlines (pyStrip x)).tail ≠ [] := by
        intro h0
        rw [h0] at hti
        simp at hti
      have hls_ne : pySplitlines (pyStrip x) ≠ [] := by
        intro h0
        rw [h0] at htail_ne
        exact htail_ne rfl
      have htt : (pySplitlines (pyStrip x)).getLast? = (pySplitlines (pyStrip x)).tail.getLast? := by
        cases hls : pySplitlines (pyStrip x) with
        | nil => exact absurd hls hls_ne
        | cons hd tl =>
            have htl : tl ≠ [] := by
              intro h0
              rw [hls, h0] at htail_ne
              exact htail_ne rfl
            simpa using getLast?_cons_ne_nil hd htl
      have haL : a = L := by
        rw [htt, hti] at hL1
        exact Option.some.inj hL1
      have ha_ne : a ≠ [] := by
        rw [haL]
        exact hL2
      have hPa : (fun l : List Char => !l.isEmpty) a = true := by
        cases a with
        | nil => exact absurd rfl ha_ne
        | cons _ _ => rfl
      have hfa : ((pySplitlines (pyStrip x)).tail.filter (fun l => !l.isEmpty)).getLast? =
          some a := filter_getLast?_of_pos _ hti hPa
      simp only [strip_fence, h, if_true, hti, hfa]

theorem c7_witness :
    FENCE.isPrefixOf (pyStrip ("```sql\nSELECT 7;\n```".data)) = true ∧
    strip_fence ("```sql\nSELECT 7;\n```".data) =
      pyStrip (joinNL
        (match ((pySplitlines (pyStrip ("```sql\nSELECT 7;\n```".data))).tail.filter
            (fun l => !l.isEmpty)).getLast? with
         | some l =>
             if FENCE.isPrefixOf (pyStrip l) = true
             then (pySplitlines (pyStrip ("```sql\nSELECT 7;\n```".data))).tail.dropLast
             else (pySplitlines (pyStrip ("```sql\nSELECT 7;\n```".data))).tail
         | none => (pySplitlines (pyStrip ("```sql\nSELECT 7;\n```".data))).tail)) :=
  ⟨by decide, c7_fenced_strip _ (by decide)⟩

/-- C8: the prompt builder inserts the request verbatim between the fixed
template prefix (which contains the three-table schema comment block and
the two literal example pairs and ends with the input marker) and the
fixed trailing output marker; as a pure function it is deterministic. -/
theorem c8_prompt_builder :
    (∀ request : List Char, buildPrompt request = TEMPLATE_PRE ++ request ++ TEMPLATE_POST) ∧
    List.isSuffixOf ("# Input: ".data) TEMPLATE_PRE = true ∧
    TEMPLATE_POST = ("\n# Output:".data) ∧
    containsSub ("# Schema:\n#   users(user_id INT, first_name VARCHAR, last_name VARCHAR, email VARCHAR, signup_date DATE)\n#   orders(order_id INT, user_id INT, order_total FLOAT, order_date DATE)\n#   products(product_id INT, name VARCHAR, price FLOAT)".data) TEMPLATE_PRE = true ∧
    containsSub ("# Input: Find total number of orders placed by each user.\n# Output: SELECT u.first_name, u.last_name, COUNT(o.order_id) AS total_orders FROM users u JOIN orders o ON u.user_id = o.user_id GROUP BY u.user_id;".data) TEMPLATE_PRE = true ∧
    containsSub ("# Input: Create a table of employees with columns emp_id, emp_name, emp_address.\n# Output: CREATE TABLE employees (emp_id INT, emp_name VARCHAR(255), emp_address VARCHAR(255));".data) TEMPLATE_PRE = true := by
  exact ⟨fun _ => rfl, by decide, rfl, by decide, by decide, by decide⟩

/-- C9: the pipeline strips the request before prompt construction, so a
request and its stripped form produce identical final SQL. -/
theorem c9_request_strip_invariant :
    ∀ (pipeOut : List Char → List Char) (key : Option (List Char))
      (remote : RemoteOutcome) (request : List Char),
      text_to_sql pipeOut key remote request =
        text_to_sql pipeOut key remote (pyStrip request) := by
  intro pipeOut key remote request
  simp only [text_to_sql, pyStrip_idem]

/-- C10: the fence stripper's result, and hence the pipeline's final
output, carries no leading or trailing whitespace: each equals its own
trimmed form. -/
theorem c10_output_trimmed :
    (∀ x : List Char, pyStrip (strip_fence x) = strip_fence x) ∧
    (∀ (pipeOut : List Char → List Char) (key : Option (List Char))
        (remote : RemoteOutcome) (request : List Char),
        pyStrip (text_to_sql pipeOut key remote request) =
          text_to_sql pipeOut key remote request) := by
  refine ⟨pyStrip_strip_fence, ?_⟩
  intro pipeOut key remote request
  exact pyStrip_strip_fence _

end TextToSql
